import Mathlib

/-!
Verification development for the RAID token-labeling pipeline.

Python strings and bytes are embedded as lists of Unicode code points
(`List Nat`); machine text operations (`str.find`, `str.split`,
`str.lower`, `str.upper`, slicing, `zip`) are translated directly from
their Python semantics.  The components modelled here:

* `LabelDictionary.convert_label` (src/label_dictionary.py, identical copy
  in src/generate_files.py lines 51-56);
* `TokenLabelFilesGenerator.write_file` (src/raid/generate_files.py
  lines 31-79), embedded as a state machine over the three output
  streams `.in` / `.label` / `.bio`, with Python's `UnboundLocalError`
  (reading the leaked loop variable `count` before any binding) and
  `IndexError` (`label[0]` on an empty label) made explicit;
* the naming-pattern classifier `find_label_with_regex`
  (src/extract_patterns.py lines 8-28), with the seven regular
  expressions compiled to a Brzozowski-derivative matcher;
* `find_bio_label_type` (src/extract_patterns.py lines 63-66, identical
  copy in src/bio_patterns.py lines 23-26), including the
  `str(node.text)[2:-1]` bytes-repr rendering;
* `JavaASTProcessor.extract_leaf_tokens` (src/raid/ast_token_activator.py
  lines 49-59, identical copy in src/src/app.py);
* the grammar dispatch of `extract_bio_labels_from_source_code`
  (src/extract_patterns.py lines 82-88), with the parsing/labeling body
  abstracted as a continuation since the parser is an external collaborator.
-/

/-- A Python `str` (or `bytes`) value, as its list of code points (bytes). -/
abbrev PyStr := List Nat

/-- Code points of a Lean string literal, for readable embedded constants. -/
def pys (s : String) : PyStr := s.data.map Char.toNat

/-- Python `s.find(t, start)`: the least index `i ≥ start` at which `t`
occurs as a substring of `s` (`none` models the return value `-1`).
Mirrors CPython: the empty substring is found at `start` whenever
`start ≤ len(s)`, and nothing is found when `start > len(s)`. -/
def pyFind (s t : PyStr) (start : Nat) : Option Nat :=
  (List.range (s.length + 1)).find? fun i =>
    decide (start ≤ i) && decide (i + t.length ≤ s.length) && ((s.drop i).take t.length == t)

/-- Python `s.split(sep)` for a single-character separator `c`:
`''.split(c) = ['']`, and a trailing separator yields a trailing empty part. -/
def pySplit (c : Nat) : PyStr → List PyStr
  | [] => [[]]
  | b :: rest =>
    match pySplit c rest with
    | [] => [[]]
    | g :: gs => if b = c then [] :: g :: gs else (b :: g) :: gs

/-- Python `str.lower` on one code point.  CPython uses the full Unicode
case mapping; this model reproduces it on the code points the theorems
below evaluate it on: the ASCII range (lowered as usual) and
U+0131 (Latin small dotless i, which CPython's `lower` leaves fixed).
Other code points are left fixed, which is why the idempotence theorem
below carries an explicit ASCII hypothesis rather than quantifying over
strings the model does not render faithfully. -/
def pyLowerChar (n : Nat) : Nat := if 65 ≤ n ∧ n ≤ 90 then n + 32 else n

/-- Python `str.upper` on one code point.  CPython uses the full Unicode
case mapping; this model reproduces it on the code points the theorems
below evaluate it on: the ASCII range, and U+0131 (Latin small dotless i),
which CPython upper-cases to the ASCII letter `I` — the mapping that
defeats idempotence of `convert_label` outside ASCII.  Other code points
are left fixed, and no theorem below relies on the map there. -/
def pyUpperChar (n : Nat) : Nat :=
  if 97 ≤ n ∧ n ≤ 122 then n - 32
  else if n = 305 then 73
  else n

/-- Python `s.lower()`. -/
def pyLower (s : PyStr) : PyStr := s.map pyLowerChar

/-- Python `s.upper()`. -/
def pyUpper (s : PyStr) : PyStr := s.map pyUpperChar

/-- The `label_types` dictionary of `LabelDictionary.__init__`
(src/label_dictionary.py lines 4-19), in source order.  Keys are distinct,
so association-list lookup below coincides with Python dict lookup. -/
def label_types : List (PyStr × PyStr) :=
  [ (pys "::", pys "DOUBLECOLON"), (pys "--", pys "DOUBLEMINUS"), (pys "++", pys "DOUBLEPLUS"),
    (pys "false", pys "BOOL"), (pys "true", pys "BOOL"),
    (pys "modifier", pys "MODIFIER"), (pys "public", pys "MODIFIER"), (pys "basictype", pys "TYPE"),
    (pys "null", pys "IDENT"), (pys "keyword", pys "KEYWORD"),
    (pys "identifier", pys "IDENT"), (pys "decimalinteger", pys "NUMBER"),
    (pys "decimalfloatingpoint", pys "NUMBER"),
    (pys "string", pys "STRING"), (pys "string_fragment", pys "STRING"),
    (pys "(", pys "LPAR"), (pys ")", pys "RPAR"), (pys "[", pys "LSQB"), (pys "]", pys "RSQB"),
    (pys ",", pys "COMMA"), (pys "?", pys "CONDITIONOP"),
    (pys ";", pys "SEMI"), (pys "+", pys "PLUS"), (pys "-", pys "MINUS"), (pys "*", pys "STAR"),
    (pys "/", pys "SLASH"), (pys ".", pys "DOT"), (pys "=", pys "EQUAL"), (pys ":", pys "COLON"),
    (pys "|", pys "VBAR"), (pys "&", pys "AMPER"), (pys "<", pys "LESS"), (pys ">", pys "GREATER"),
    (pys "%", pys "PERCENT"), (pys "\x7b", pys "LBRACE"), (pys "\x7d", pys "RBRACE"),
    (pys "==", pys "EQEQUAL"), (pys "!=", pys "NOTEQUAL"), (pys "<=", pys "LESSEQUAL"),
    (pys ">=", pys "GREATEREQUAL"), (pys "~", pys "TILDE"),
    (pys "^", pys "CIRCUMFLEX"), (pys "\"", pys "DQUOTES"),
    (pys "<<", pys "LEFTSHIFT"), (pys ">>", pys "RIGHTSHIFT"), (pys "**", pys "DOUBLESTAR"),
    (pys "+=", pys "PLUSEUQAL"), (pys "-=", pys "MINEQUAL"), (pys "*=", pys "STAREQUAL"),
    (pys "/=", pys "SLASHEQUAL"), (pys "%=", pys "PERCENTEQUAL"), (pys "&=", pys "AMPEREQUAL"),
    (pys "|=", pys "VBAREQUAL"), (pys "^=", pys "CIRCUMFLEXEQUAL"),
    (pys "<<=", pys "LEFTSHIFTEQUAL"), (pys ">>=", pys "RIGHTSHIFTEQUAL"),
    (pys "**=", pys "DOUBLESTAREQUAL"), (pys "//", pys "DOUBLESLASH"),
    (pys "//=", pys "DOUBLESLASHEQUAL"),
    (pys "@", pys "AT"), (pys "@=", pys "ATEQUAL"), (pys "->", pys "RARROW"),
    (pys "...", pys "ELLIPSIS"), (pys ":=", pys "COLONEQUAL"), (pys "&&", pys "AND"),
    (pys "!", pys "NOT"), (pys "||", pys "OR") ]

/-- Python `label_l in self.label_types` / `self.label_types[label_l]`
combined: dictionary lookup on the association list. -/
def labelTypesGet (k : PyStr) : Option PyStr :=
  (label_types.find? fun p => p.1 == k).map Prod.snd

/-- `LabelDictionary.convert_label` (src/label_dictionary.py lines 22-27):
lower-case the label, return the table entry when present, otherwise the
upper-cased input. -/
def convert_label (label : PyStr) : PyStr :=
  let label_l := pyLower label
  match labelTypesGet label_l with
  | none => pyUpper label
  | some v => v

/-- One write event on an output file: a chunk written by `file.write(...)`
with no line break, or the line-boundary write `file.write('\n')`. -/
inductive Ev where
  | chunk : PyStr → Ev
  | nl : Ev
deriving DecidableEq

/-- Exceptions `write_file` can raise: reading the loop variable `count`
before it was ever bound, and `label[0]` on an empty label. -/
inductive PyErr where
  | unboundLocal : PyErr
  | indexError : PyErr
deriving DecidableEq

/-- The mutable state of `TokenLabelFilesGenerator.write_file`
(src/raid/generate_files.py lines 46-58): the global token cursor `prev`,
the in-line character cursor `token_index`, the flags/locals `decreased`
and `count` (`none` models "not yet bound"), and the three output streams. -/
structure WFState where
  prev : Nat
  tokenIndex : Nat
  decreased : Bool
  count : Option Nat
  outIn : List Ev
  outLabel : List Ev
  outBio : List Ev
deriving DecidableEq

/-- Initial state on entry to `write_file`: `prev = 0`, `token_index = 0`,
`decreased = False`, `count` unbound, all files without writes yet. -/
def initWF : WFState :=
  { prev := 0, tokenIndex := 0, decreased := false, count := none,
    outIn := [], outLabel := [], outBio := [] }

/-- The inner loop `for count, t in enumerate(tokens[prev:])`
(src/raid/generate_files.py lines 59-67).  Arguments are the remaining
token list, the enumeration index, the character cursor `token_index`,
the current binding of `count`, and `decreased`; the result is the
final `(count, token_index, decreased)`.  A found token advances the
cursor to one past the match start; on a miss with `count >= 2` the
count is decremented and `decreased` set, then the loop breaks. -/
def scanLine (line : PyStr) : List PyStr → Nat → Nat → Option Nat → Bool →
    Option Nat × Nat × Bool
  | [], _, ti, c, d => (c, ti, d)
  | t :: rest, idx, ti, _, d =>
    match pyFind line t ti with
    | some p => scanLine line rest (idx + 1) (p + 1) (some idx) d
    | none => if 2 ≤ idx then (some (idx - 1), ti, true) else (some idx, ti, d)

/-- Index of the first token of the list whose `line.find(t, token_index)`
fails, following the same evolving character cursor as `scanLine`
(`none` when every token is found). -/
def firstFail (line : PyStr) : List PyStr → Nat → Option Nat
  | [], _ => none
  | t :: rest, ti =>
    match pyFind line t ti with
    | some p => (firstFail line rest (p + 1)).map (· + 1)
    | none => some 0

/-- The emission loop over `zip(tokens[prev:prev+count+1],
labels[prev:prev+count+1])` (src/raid/generate_files.py lines 70-73).
Per pair it writes `token + ' '` to `.in`, the converted
`label[2:] + ' '` to `.label`, and `label[0] + ' '` to `.bio`;
an empty label raises `IndexError` at the `.bio` write, after the first
two writes of that pair already happened. -/
def emitPairs : List (PyStr × PyStr) → WFState → WFState × Option PyErr
  | [], st => (st, none)
  | (tok, lab) :: rest, st =>
    let st1 := { st with
      outIn := st.outIn ++ [Ev.chunk (tok ++ [32])],
      outLabel := st.outLabel ++ [Ev.chunk (convert_label (lab.drop 2) ++ [32])] }
    match lab with
    | [] => (st1, some PyErr.indexError)
    | b :: _ =>
      emitPairs rest { st1 with outBio := st1.outBio ++ [Ev.chunk [b, 32]] }

/-- One iteration of `for line in lines` (src/raid/generate_files.py
lines 53-79).  A blank line writes a lone newline to each stream and
changes nothing else; otherwise the token scan runs, `count` is read
(raising `UnboundLocalError` when it was never bound), the one-matched
back-off `if count == 1 and not decreased` is applied, the matched
slice is emitted, and the cursors are updated. -/
def stepLine (tokens labels : List PyStr) (st : WFState) (line : PyStr) :
    WFState × Option PyErr :=
  if line = [] then
    ({ st with outIn := st.outIn ++ [Ev.nl], outLabel := st.outLabel ++ [Ev.nl],
               outBio := st.outBio ++ [Ev.nl] }, none)
  else
    match scanLine line (tokens.drop st.prev) 0 st.tokenIndex st.count st.decreased with
    | (none, _, _) => (st, some PyErr.unboundLocal)
    | (some c0, ti, d) =>
      let c := if c0 = 1 ∧ d = false then c0 - 1 else c0
      let pairs := ((tokens.drop st.prev).take (c + 1)).zip ((labels.drop st.prev).take (c + 1))
      let st1 := { st with tokenIndex := ti, decreased := d, count := some c }
      match emitPairs pairs st1 with
      | (st2, some e) => (st2, some e)
      | (st2, none) =>
        ({ st2 with outIn := st2.outIn ++ [Ev.nl], outLabel := st2.outLabel ++ [Ev.nl],
                    outBio := st2.outBio ++ [Ev.nl],
                    prev := st.prev + c + 1, tokenIndex := 0, decreased := false }, none)

/-- The `for line in lines` loop, stopping at the first raised exception
(which propagates out of `write_file`). -/
def runLines (tokens labels : List PyStr) : List PyStr → WFState → WFState × Option PyErr
  | [], st => (st, none)
  | l :: ls, st =>
    match stepLine tokens labels st l with
    | (st', none) => runLines tokens labels ls st'
    | (st', some e) => (st', some e)

/-- `TokenLabelFilesGenerator.write_file` (src/raid/generate_files.py
lines 31-79) on `string`, `tokens`, `labels`: split the string on `'\n'`
and run the per-line loop from the initial state.  The result is the
final state (with everything written to the streams so far) together
with the exception, if one was raised. -/
def write_file (string : PyStr) (tokens labels : List PyStr) : WFState × Option PyErr :=
  runLines tokens labels (pySplit 10 string) initWF

/-- Encoding of one completed output line of token groups as write events. -/
def encLine (g : List PyStr) : List Ev := g.map Ev.chunk ++ [Ev.nl]

/-- Number of newline writes in a stream. -/
def nlCount (evs : List Ev) : Nat := evs.countP (· == Ev.nl)

/-- Regular expressions over code points, covering the constructs used by
the `cases` table of src/extract_patterns.py: character classes, literal
sequences, alternation, concatenation, Kleene star. -/
inductive RE where
  | emp : RE
  | eps : RE
  | cls : (Nat → Bool) → RE
  | alt : RE → RE → RE
  | cat : RE → RE → RE
  | star : RE → RE

/-- Does the regular expression accept the empty string. -/
def RE.nullable : RE → Bool
  | .emp => false
  | .eps => true
  | .cls _ => false
  | .alt a b => a.nullable || b.nullable
  | .cat a b => a.nullable && b.nullable
  | .star _ => true

/-- Brzozowski derivative by one code point. -/
def RE.deriv : RE → Nat → RE
  | .emp, _ => .emp
  | .eps, _ => .emp
  | .cls p, c => if p c then .eps else .emp
  | .alt a b, c => .alt (a.deriv c) (b.deriv c)
  | .cat a b, c => if a.nullable then .alt (.cat (a.deriv c) b) (b.deriv c)
                   else .cat (a.deriv c) b
  | .star a, c => .cat (a.deriv c) (.star a)

/-- Whole-string regular-expression matching by iterated derivatives. -/
def RE.matches : RE → PyStr → Bool
  | r, [] => r.nullable
  | r, c :: rest => (r.deriv c).matches rest

/-- One or more repetitions (`+`). -/
def RE.plus (r : RE) : RE := .cat r (.star r)

/-- Zero or one repetition (`?`). -/
def RE.opt (r : RE) : RE := .alt r .eps

/-- A literal string. -/
def RE.lit (s : String) : RE :=
  s.data.foldr (fun ch acc => RE.cat (RE.cls (· == ch.toNat)) acc) .eps

/-- Character class `[a-z]`. -/
def reLower : RE := .cls fun n => 97 ≤ n && n ≤ 122

/-- Character class `[A-Z]`. -/
def reUpper : RE := .cls fun n => 65 ≤ n && n ≤ 90

/-- Character class `[a-zA-Z]`. -/
def reLetter : RE := .cls fun n => (97 ≤ n && n ≤ 122) || (65 ≤ n && n ≤ 90)

/-- Character class `[0-9]`. -/
def reDigit : RE := .cls fun n => 48 ≤ n && n ≤ 57

/-- Character class `[a-z0-9]`. -/
def reLowerDigit : RE := .cls fun n => (97 ≤ n && n ≤ 122) || (48 ≤ n && n ≤ 57)

/-- Python `.` (any character except a newline; `re.DOTALL` is not used). -/
def reDot : RE := .cls fun n => n != 10

/-- The underscore `_`. -/
def reUnderscore : RE := .cls (· == 95)

/-- The `cases` dictionary of src/extract_patterns.py lines 8-16, in source
order, each pattern compiled from its regular expression:
`single_letter` is `[a-zA-Z]`, `camel_case` is
`[a-z][a-z]*(?:[A-Z][a-z0-9]+)*[a-zA-Z]?`, `pascal_case` is
`([A-Z][a-z]+)*[A-Z][a-z]*`, `snake_case` is `[a-z]+(_[a-z]+)*`,
`screaming_snake_case` is `[A-Z]+(_[A-Z]+)*`, `prefix` is
`(get|set)[A-Za-z]+`, `numeric` is `[a-zA-Z].+[0-9]+` (each anchored by
`^...$` in the source). -/
def cases : List (String × RE) :=
  [ ("single_letter", reLetter),
    ("camel_case", .cat reLower (.cat (.star reLower)
        (.cat (.star (.cat reUpper (RE.plus reLowerDigit))) (RE.opt reLetter)))),
    ("pascal_case", .cat (.star (.cat reUpper (RE.plus reLower)))
        (.cat reUpper (.star reLower))),
    ("snake_case", .cat (RE.plus reLower) (.star (.cat reUnderscore (RE.plus reLower)))),
    ("screaming_snake_case", .cat (RE.plus reUpper)
        (.star (.cat reUnderscore (RE.plus reUpper)))),
    ("prefix", .cat (.alt (RE.lit "get") (RE.lit "set")) (RE.plus reLetter)),
    ("numeric", .cat reLetter (.cat (RE.plus reDot) (RE.plus reDigit))) ]

/-- Semantics of `re.match('^' + body + '$', token)` as a Boolean: the body
matches the whole token, or everything up to one final newline (CPython's
`$` also matches just before a terminal `'\n'`). -/
def pyReMatchFull (r : RE) (s : PyStr) : Bool :=
  r.matches s || (!s.isEmpty && (s.getLast? == some 10) && r.matches s.dropLast)

/-- `check_token` (src/extract_patterns.py lines 19-21): look the key up in
`cases` and test the token against the pattern. -/
def check_token (token : PyStr) (regex : String) : Bool :=
  match cases.find? fun p => p.1 == regex with
  | some p => pyReMatchFull p.2 token
  | none => false

/-- `find_label_with_regex` (src/extract_patterns.py lines 24-28): iterate
the `cases` keys in order, return the first whose pattern matches,
else the sentinel `'N/A'`. -/
def find_label_with_regex (token : PyStr) : String :=
  match cases.find? fun p => pyReMatchFull p.2 token with
  | some p => p.1
  | none => "N/A"

/-- A tree-sitter node as consulted by `find_bio_label_type`: its grammar
`type`, its source `text` (bytes), and its parent chain. -/
inductive BioNode where
  | mk : PyStr → PyStr → Option BioNode → BioNode

/-- Grammar node type (`node.type`). -/
def BioNode.type : BioNode → PyStr
  | .mk t _ _ => t

/-- Source text of the node (`node.text`, bytes). -/
def BioNode.text : BioNode → PyStr
  | .mk _ x _ => x

/-- Parent node (`node.parent`), `none` at the root. -/
def BioNode.parent : BioNode → Option BioNode
  | .mk _ _ p => p

/-- Lower-case hexadecimal digit of a value below 16. -/
def hexDigit (n : Nat) : Nat := if n < 10 then 48 + n else 87 + n

/-- CPython's rendering of one byte inside `repr(bytes)` with quote
character `q`: backslash and the quote are escaped, tab, line feed and
carriage return use their two-character escapes, printable ASCII stands
for itself, everything else becomes `\xhh`. -/
def reprByte (q b : Nat) : PyStr :=
  if b = 92 then [92, 92]
  else if b = q then [92, q]
  else if b = 9 then [92, 116]
  else if b = 10 then [92, 110]
  else if b = 13 then [92, 114]
  else if 32 ≤ b ∧ b ≤ 126 then [b]
  else [92, 120, hexDigit (b / 16), hexDigit (b % 16)]

/-- CPython `str(b)` for a bytes object `b`: the letter `b`, a quote
(double when the content holds a single quote but no double quote,
single otherwise), the escaped content, and the closing quote. -/
def pyReprBytes (bs : PyStr) : PyStr :=
  let q := if bs.contains 39 && !(bs.contains 34) then 34 else 39
  [98, q] ++ bs.flatMap (reprByte q) ++ [q]

/-- Python `str(node.text)[2:-1]`: drop the `b` and opening quote, and the
closing quote. -/
def strTextSlice (bs : PyStr) : PyStr := ((pyReprBytes bs).drop 2).dropLast

/-- `find_bio_label_type` (src/extract_patterns.py lines 63-66, identical
in src/bio_patterns.py lines 23-26): when the node's type equals
`str(node.text)[2:-1]` or is `identifier`, and a parent exists, the label
is the parent's type; otherwise the node's own type. -/
def find_bio_label_type (node : BioNode) : PyStr :=
  match node.parent with
  | some par =>
    if node.type == strTextSlice node.text || node.type == pys "identifier" then par.type
    else node.type
  | none => node.type

/-- A parsed syntax-tree node as walked by `extract_leaf_tokens`:
node type, decoded text, ordered children. -/
inductive ASTNode where
  | mk : String → String → List ASTNode → ASTNode

mutual
/-- `JavaASTProcessor.extract_leaf_tokens` (src/raid/ast_token_activator.py
lines 49-59, identical in src/src/app.py): a node with no children is
emitted as `(type, text, depth)`; otherwise the children are visited
left to right with `depth + 1`.  `process_ast` starts it at the root
with `depth = 0`. -/
def extract_leaf_tokens : ASTNode → Nat → List (String × String × Nat)
  | ASTNode.mk t x [], d => [(t, x, d)]
  | ASTNode.mk _ _ (c :: cs), d => extractLeafList (c :: cs) (d + 1)

/-- The `for child in node.children: tokens.extend(...)` loop. -/
def extractLeafList : List ASTNode → Nat → List (String × String × Nat)
  | [], _ => []
  | n :: ns, d => extract_leaf_tokens n d ++ extractLeafList ns d
end

/-- Observable outcome of one call of `extract_bio_labels_from_source_code`:
the lines printed, and — when the grammar was supported — the grammar the
source was parsed with together with the abstracted body's result. -/
structure BioRun (α : Type) where
  printed : List String
  parsedWith : Option (String × α)
deriving DecidableEq

/-- Error message printed for an unsupported grammar id
(src/extract_patterns.py line 87). -/
def unsupportedGrammarMsg : String := "Please pick Java or Python as a language."

/-- The grammar dispatch of `extract_bio_labels_from_source_code`
(src/extract_patterns.py lines 82-88): `java` and `python` select their
grammar and continue into parsing and labeling (lines 89-131, abstracted
as the continuation `body`, which returns its own printed output); any
other id prints the diagnostic and returns `None` at once, without
parsing. -/
def extract_bio_labels_from_source_code {α : Type} (source_code : PyStr) (language : String)
    (depth : Int) (body : String → PyStr → Int → α × List String) : BioRun α :=
  if language = "java" then
    let r := body "java" source_code depth
    { printed := r.2, parsedWith := some ("java", r.1) }
  else if language = "python" then
    let r := body "python" source_code depth
    { printed := r.2, parsedWith := some ("python", r.1) }
  else
    { printed := [unsupportedGrammarMsg], parsedWith := none }

/-- Structural induction for `ASTNode` with the child hypothesis given
memberwise (the nested-inductive recursor is inconvenient directly). -/
theorem ASTNode.strongInd {P : ASTNode → Prop}
    (h : ∀ t x cs, (∀ c ∈ cs, P c) → P (ASTNode.mk t x cs)) : ∀ n, P n
  | ASTNode.mk t x cs => h t x cs (fun c hc =>
      have : sizeOf c < sizeOf (ASTNode.mk t x cs) := by
        have h1 := List.sizeOf_lt_of_mem hc
        simp only [ASTNode.mk.sizeOf_spec]
        omega
      ASTNode.strongInd h c)
termination_by n => sizeOf n

theorem pyLowerChar_pyUpperChar_ascii (n : Nat) (h : n ≤ 127) :
    pyLowerChar (pyUpperChar n) = pyLowerChar n := by
  by_cases h1 : 97 ≤ n ∧ n ≤ 122
  · simp only [pyUpperChar, pyLowerChar, if_pos h1]
    have h2 : 65 ≤ n - 32 ∧ n - 32 ≤ 90 := by omega
    have h3 : ¬(65 ≤ n ∧ n ≤ 90) := by omega
    rw [if_pos h2, if_neg h3]
    omega
  · have h4 : ¬(n = 305) := by omega
    simp only [pyUpperChar, if_neg h1, if_neg h4]

theorem pyUpperChar_pyUpperChar_ascii (n : Nat) (h : n ≤ 127) :
    pyUpperChar (pyUpperChar n) = pyUpperChar n := by
  by_cases h1 : 97 ≤ n ∧ n ≤ 122
  · simp only [pyUpperChar, if_pos h1]
    have h2 : ¬(97 ≤ n - 32 ∧ n - 32 ≤ 122) := by omega
    have h3 : ¬(n - 32 = 305) := by omega
    rw [if_neg h2, if_neg h3]
  · have h4 : ¬(n = 305) := by omega
    simp only [pyUpperChar, if_neg h1, if_neg h4]

theorem pyLower_pyUpper_ascii (s : PyStr) (h : ∀ n ∈ s, n ≤ 127) :
    pyLower (pyUpper s) = pyLower s := by
  simp only [pyLower, pyUpper, List.map_map]
  exact List.map_congr_left fun n hn => pyLowerChar_pyUpperChar_ascii n (h n hn)

theorem pyUpper_pyUpper_ascii (s : PyStr) (h : ∀ n ∈ s, n ≤ 127) :
    pyUpper (pyUpper s) = pyUpper s := by
  simp only [pyUpper, List.map_map]
  exact List.map_congr_left fun n hn => pyUpperChar_pyUpperChar_ascii n (h n hn)

theorem convert_label_table_values : ∀ p ∈ label_types, convert_label p.2 = p.2 := by decide

/-- Unfolding equation for `convert_label`. -/
theorem convert_label_def (s : PyStr) :
    convert_label s = match labelTypesGet (pyLower s) with
      | none => pyUpper s
      | some v => v := rfl

/-- C8 counterexample: canonicalization is not idempotent on all strings.
For the label `ıdentifier` (starting with U+0131, Latin small dotless i),
the first application finds no table entry (its lower-case is itself,
absent from `label_types`) and upper-cases it; CPython's `upper` maps
U+0131 to the ASCII letter `I`, giving `IDENTIFIER`.  The second
application lower-cases that to `identifier`, which *is* in the table,
and returns `IDENT` ≠ `IDENTIFIER`. -/
theorem convert_label_not_idempotent_dotless_i :
    convert_label (pys "ıdentifier") = pys "IDENTIFIER"
    ∧ convert_label (convert_label (pys "ıdentifier")) = pys "IDENT"
    ∧ pys "IDENT" ≠ pys "IDENTIFIER" := by
  refine ⟨by decide, by decide, by decide⟩

/-- C8 (amended): label canonicalization is idempotent on ASCII labels:
for every string of ASCII code points, applying `convert_label` twice
equals applying it once.  Every table value is itself a fixed point, and
for unknown ASCII labels lower-casing the upper-cased label reproduces
the original lookup key, which is still absent.  (Outside ASCII the
claim fails, per the counterexample above.) -/
theorem convert_label_idempotent_ascii (s : PyStr) (h : ∀ n ∈ s, n ≤ 127) :
    convert_label (convert_label s) = convert_label s := by
  rw [convert_label_def s]
  cases hlook : labelTypesGet (pyLower s) with
  | some v =>
    simp only
    obtain ⟨p, hp, hv⟩ : ∃ p, label_types.find? (fun q => q.1 == pyLower s) = some p ∧ p.2 = v := by
      unfold labelTypesGet at hlook
      cases hf : label_types.find? (fun q => q.1 == pyLower s) with
      | none => rw [hf] at hlook; simp at hlook
      | some p => rw [hf] at hlook; exact ⟨p, rfl, by simpa using hlook⟩
    have hfix := convert_label_table_values p (List.mem_of_find?_eq_some hp)
    rw [hv] at hfix
    exact hfix
  | none =>
    simp only
    rw [convert_label_def (pyUpper s), pyLower_pyUpper_ascii s h, hlook]
    exact pyUpper_pyUpper_ascii s h

theorem convert_label_idempotent_ascii_witness :
    convert_label (convert_label (pys "basictype")) = convert_label (pys "basictype") :=
  convert_label_idempotent_ascii (pys "basictype") (by decide)

/-- C9: the grammar dispatch of `extract_bio_labels_from_source_code` on
any grammar id other than `java` and `python` prints the diagnostic and
returns at once, before any parsing or labeling takes place. -/
theorem unsupported_grammar_fails_fast {α : Type} (source_code : PyStr) (language : String)
    (depth : Int) (body : String → PyStr → Int → α × List String)
    (hj : language ≠ "java") (hp : language ≠ "python") :
    extract_bio_labels_from_source_code source_code language depth body =
      { printed := [unsupportedGrammarMsg], parsedWith := none } := by
  unfold extract_bio_labels_from_source_code
  rw [if_neg hj, if_neg hp]

theorem unsupported_grammar_fails_fast_witness :
    extract_bio_labels_from_source_code (pys "class A") "ruby" (-1)
        (fun g _ _ => (g, [])) =
      { printed := [unsupportedGrammarMsg], parsedWith := none } :=
  unsupported_grammar_fails_fast (pys "class A") "ruby" (-1) (fun g _ _ => (g, []))
    (by decide) (by decide)

/-- C7 counterexample: the naming classifier applied to `getX` does not
return the `prefix` category — the `camel_case` pattern also matches
`getX` and precedes `prefix` in the table. -/
theorem find_label_getX_not_the_get_set_category :
    find_label_with_regex (pys "getX") = "camel_case" ∧
      ("camel_case" : String) ≠ "prefix" := by
  constructor
  · decide
  · decide

/-- C7 (amended): `find_label_with_regex` returns the first category of the
`cases` table, in its fixed order, whose pattern matches the token
(`N/A` when none does); on `getX` this is `camel_case`, since
`camel_case` matches `getX` and precedes `prefix`. -/
theorem find_label_first_match :
    (∀ token : PyStr, find_label_with_regex token =
      (((cases.filter fun p => pyReMatchFull p.2 token).head?.map Prod.fst).getD "N/A"))
    ∧ find_label_with_regex (pys "getX") = "camel_case" := by
  constructor
  · intro token
    unfold find_label_with_regex
    rw [← List.filter_head? (fun p => pyReMatchFull p.2 token) cases]
    cases (cases.filter fun p => pyReMatchFull p.2 token).head? with
    | none => rfl
    | some p => rfl
  · decide

theorem extractLeafList_eq (ns : List ASTNode) (d : Nat) :
    extractLeafList ns d = (ns.map fun n => extract_leaf_tokens n d).flatten := by
  induction ns with
  | nil => simp [extractLeafList]
  | cons n ns ih => simp [extractLeafList, ih]

theorem extract_leaf_tokens_shift : ∀ (n : ASTNode) (d : Nat),
    extract_leaf_tokens n d = (extract_leaf_tokens n 0).map fun p => (p.1, p.2.1, d + p.2.2) := by
  intro n
  induction n using ASTNode.strongInd with
  | h t x cs ih =>
    intro d
    match cs, ih with
    | [], _ => simp [extract_leaf_tokens]
    | c :: cs, ih =>
      simp only [extract_leaf_tokens, extractLeafList_eq]
      rw [List.map_flatten]
      simp only [List.map_map]
      congr 1
      apply List.map_congr_left
      intro a ha
      have h0 := ih a ha (d + 1)
      have h1 := ih a ha 1
      simp only [Function.comp]
      rw [h0, h1, List.map_map]
      apply List.map_congr_left
      intro p _
      simp
      omega

/-- C5 counterexample: a leaf that is a direct child of the root is emitted
with depth 1, not 0 — the traversal starts at the root with depth 0 and
passes `depth + 1` to the children. -/
theorem extract_leaf_root_child_depth :
    extract_leaf_tokens (ASTNode.mk "program" "x" [ASTNode.mk "identifier" "x" []]) 0 =
        [("identifier", "x", 1)] ∧ (1 : Nat) ≠ 0 := by
  constructor
  · rfl
  · decide

/-- C5 (amended): `extract_leaf_tokens` emits the childless nodes in
left-to-right pre-order; the reported depth is the distance from the node
the traversal started at (the root, entered with depth 0), so direct
children of the root carry depth 1, each further descent adds one, and a
single-node tree yields that node itself as the sole leaf with depth 0. -/
theorem extract_leaf_tokens_preorder_depth :
    (∀ t x d, extract_leaf_tokens (ASTNode.mk t x []) d = [(t, x, d)])
    ∧ (∀ t x c cs, extract_leaf_tokens (ASTNode.mk t x (c :: cs)) 0 =
        ((c :: cs).map fun n =>
          (extract_leaf_tokens n 0).map fun p => (p.1, p.2.1, 1 + p.2.2)).flatten)
    ∧ (∀ n d, extract_leaf_tokens n d =
        (extract_leaf_tokens n 0).map fun p => (p.1, p.2.1, d + p.2.2)) := by
  refine ⟨fun t x d => rfl, fun t x c cs => ?_, extract_leaf_tokens_shift⟩
  show extractLeafList (c :: cs) 1 = _
  rw [extractLeafList_eq]
  congr 1
  exact List.map_congr_left fun a _ => extract_leaf_tokens_shift a 1

theorem reprByte_plain (b : Nat) (h1 : 32 ≤ b) (h2 : b ≤ 126) (h3 : b ≠ 92) (h4 : b ≠ 39) :
    reprByte 39 b = [b] := by
  unfold reprByte
  rw [if_neg (by omega), if_neg (by omega), if_neg (by omega), if_neg (by omega),
    if_neg (by omega), if_pos (by omega)]

theorem flatMap_reprByte_plain (bs : PyStr)
    (h : ∀ b ∈ bs, 32 ≤ b ∧ b ≤ 126 ∧ b ≠ 92 ∧ b ≠ 39) :
    bs.flatMap (reprByte 39) = bs := by
  induction bs with
  | nil => rfl
  | cons b rest ih =>
    have hb := h b (List.mem_cons_self b rest)
    rw [List.flatMap_cons, reprByte_plain b hb.1 hb.2.1 hb.2.2.1 hb.2.2.2,
      ih (fun x hx => h x (List.mem_cons_of_mem b hx))]
    rfl

/-- On text made of printable ASCII with no backslash and no single quote,
Python's `str(bytes)[2:-1]` rendering is the text itself. -/
theorem strTextSlice_plain (bs : PyStr)
    (h : ∀ b ∈ bs, 32 ≤ b ∧ b ≤ 126 ∧ b ≠ 92 ∧ b ≠ 39) :
    strTextSlice bs = bs := by
  have hnotmem : 39 ∉ bs := fun hmem => (h 39 hmem).2.2.2 rfl
  have h39 : bs.contains 39 = false := by
    have he : bs.contains 39 = decide (39 ∈ bs) := List.elem_eq_mem 39 bs
    rw [he, decide_eq_false hnotmem]
  have hq : pyReprBytes bs = [98, 39] ++ bs.flatMap (reprByte 39) ++ [39] := by
    unfold pyReprBytes
    rw [h39]
    simp
  unfold strTextSlice
  rw [hq, flatMap_reprByte_plain bs h]
  simp only [List.cons_append, List.nil_append, List.drop_succ_cons, List.drop_zero]
  exact List.dropLast_concat

/-- C6: the structural label of a leaf.  When the leaf's type equals
Python's `str(node.text)[2:-1]` rendering of its own text (which, for
printable ASCII text without backslash or single quote, is the text
itself) or its type is `identifier`, and the leaf has a parent, the label
is the parent's node type; every other leaf keeps its own node type. -/
theorem find_bio_label_from_parent (node : BioNode) :
    (∀ p, node.parent = some p →
      (node.type = pys "identifier" ∨ node.type = strTextSlice node.text) →
      find_bio_label_type node = p.type)
    ∧ ((node.parent = none ∨
        (node.type ≠ pys "identifier" ∧ node.type ≠ strTextSlice node.text)) →
      find_bio_label_type node = node.type)
    ∧ ((∀ b ∈ node.text, 32 ≤ b ∧ b ≤ 126 ∧ b ≠ 92 ∧ b ≠ 39) →
      strTextSlice node.text = node.text) := by
  refine ⟨?_, ?_, strTextSlice_plain node.text⟩
  · intro p hp hor
    have hcond : (node.type == strTextSlice node.text || node.type == pys "identifier") = true := by
      rcases hor with h | h
      · simp [h]
      · simp [h]
    unfold find_bio_label_type
    rw [hp]
    show (if (node.type == strTextSlice node.text || node.type == pys "identifier") = true
        then p.type else node.type) = p.type
    rw [if_pos hcond]
  · intro hcase
    unfold find_bio_label_type
    rcases hcase with h | h
    · rw [h]
    · cases hp : node.parent with
      | none => rfl
      | some p =>
        have hcond : (node.type == strTextSlice node.text || node.type == pys "identifier") = false := by
          simp [h.1, h.2]
        show (if (node.type == strTextSlice node.text || node.type == pys "identifier") = true
            then p.type else node.type) = node.type
        rw [hcond]
        simp

theorem find_bio_label_from_parent_witness :
    find_bio_label_type (BioNode.mk (pys "identifier") (pys "foo")
        (some (BioNode.mk (pys "method_declaration") (pys "m") none))) =
      pys "method_declaration" ∧ strTextSlice (pys "foo") = pys "foo" := by
  have h := find_bio_label_from_parent (BioNode.mk (pys "identifier") (pys "foo")
    (some (BioNode.mk (pys "method_declaration") (pys "m") none)))
  exact ⟨h.1 (BioNode.mk (pys "method_declaration") (pys "m") none) rfl (Or.inl rfl),
    h.2.2 (by decide)⟩

/-- C4: a blank physical line writes exactly one line-boundary marker to
each of the three streams and changes nothing else — in particular the
global token cursor `prev` is unchanged and the emitted line group is
empty (no chunk precedes the newline). -/
theorem blank_line_consumes_nothing (tokens labels : List PyStr) (st : WFState) :
    stepLine tokens labels st [] =
      ({ st with outIn := st.outIn ++ [Ev.nl], outLabel := st.outLabel ++ [Ev.nl],
                 outBio := st.outBio ++ [Ev.nl] }, none)
    ∧ (stepLine tokens labels st []).1.prev = st.prev
    ∧ (stepLine tokens labels st []).1.count = st.count := by
  refine ⟨rfl, ?_, ?_⟩ <;> rfl

theorem emitPairs_ok (pairs : List (PyStr × PyStr)) :
    ∀ st st', emitPairs pairs st = (st', none) →
    st'.outIn = st.outIn ++ (pairs.map fun p => Ev.chunk (p.1 ++ [32]))
    ∧ st'.outLabel = st.outLabel ++
        (pairs.map fun p => Ev.chunk (convert_label (p.2.drop 2) ++ [32]))
    ∧ st'.outBio = st.outBio ++ (pairs.map fun p => Ev.chunk [p.2.headI, 32])
    ∧ st'.prev = st.prev ∧ st'.tokenIndex = st.tokenIndex
    ∧ st'.decreased = st.decreased ∧ st'.count = st.count := by
  induction pairs with
  | nil =>
    intro st st' h
    cases h
    simp
  | cons pr rest ih =>
    intro st st' h
    obtain ⟨tok, lab⟩ := pr
    cases lab with
    | nil => simp [emitPairs] at h
    | cons b lb =>
      have h' : emitPairs rest
          { st with
            outIn := st.outIn ++ [Ev.chunk (tok ++ [32])],
            outLabel := st.outLabel ++ [Ev.chunk (convert_label ((b :: lb).drop 2) ++ [32])],
            outBio := st.outBio ++ [Ev.chunk [b, 32]] } = (st', none) := by
        simpa [emitPairs] using h
      have hr := ih _ _ h'
      simp only at hr
      obtain ⟨h1, h2, h3, h4, h5, h6, h7⟩ := hr
      refine ⟨?_, ?_, ?_, h4, h5, h6, h7⟩
      · rw [h1]; simp
      · rw [h2]; simp
      · rw [h3]; simp

theorem scanLine_isSome_of_some (line : PyStr) (toks : List PyStr) :
    ∀ idx ti x d, (scanLine line toks idx ti (some x) d).1.isSome := by
  induction toks with
  | nil => intro idx ti x d; rfl
  | cons t rest ih =>
    intro idx ti x d
    unfold scanLine
    cases pyFind line t ti with
    | some p => exact ih (idx + 1) (p + 1) idx d
    | none =>
      by_cases h2 : 2 ≤ idx
      · simp [h2]
      · simp [h2]

theorem scanLine_isSome_of_ne_nil (line : PyStr) (toks : List PyStr) (hne : toks ≠ [])
    (idx ti : Nat) (c : Option Nat) (d : Bool) :
    (scanLine line toks idx ti c d).1.isSome := by
  cases toks with
  | nil => exact absurd rfl hne
  | cons t rest =>
    unfold scanLine
    cases pyFind line t ti with
    | some p => exact scanLine_isSome_of_some line rest (idx + 1) (p + 1) idx d
    | none =>
      by_cases h2 : 2 ≤ idx
      · simp [h2]
      · simp [h2]

theorem scanLine_fail (line : PyStr) (toks : List PyStr) :
    ∀ ti k idx c, firstFail line toks ti = some k →
    ∃ ti', scanLine line toks idx ti c false =
      (some (if 2 ≤ idx + k then idx + k - 1 else idx + k), ti', decide (2 ≤ idx + k)) := by
  induction toks with
  | nil => intro ti k idx c h; simp [firstFail] at h
  | cons t rest ih =>
    intro ti k idx c h
    unfold firstFail at h
    unfold scanLine
    cases hf : pyFind line t ti with
    | none =>
      rw [hf] at h
      have hk : k = 0 := by simpa using h.symm
      subst hk
      by_cases h2 : 2 ≤ idx
      · refine ⟨ti, ?_⟩
        simp [h2]
      · refine ⟨ti, ?_⟩
        simp [h2]
    | some p =>
      rw [hf] at h
      simp only at h
      cases hff : firstFail line rest (p + 1) with
      | none => rw [hff] at h; simp at h
      | some k' =>
        rw [hff] at h
        have hk : k = k' + 1 := by simpa using h.symm
        subst hk
        obtain ⟨ti', hrec⟩ := ih (p + 1) k' (idx + 1) (some idx) hff
        refine ⟨ti', ?_⟩
        have harith : idx + 1 + k' = idx + (k' + 1) := by omega
        rw [harith] at hrec
        exact hrec

theorem stepLine_ok_nonblank (tokens labels : List PyStr) (st : WFState) (line : PyStr)
    (hline : line ≠ []) (st' : WFState)
    (h : stepLine tokens labels st line = (st', none)) :
    ∃ c0 ti d c,
      scanLine line (tokens.drop st.prev) 0 st.tokenIndex st.count st.decreased
          = (some c0, ti, d)
      ∧ c = (if c0 = 1 ∧ d = false then c0 - 1 else c0)
      ∧ st'.prev = st.prev + c + 1
      ∧ st'.count = some c
      ∧ st'.tokenIndex = 0
      ∧ st'.decreased = false
      ∧ st'.outIn = st.outIn ++
          ((((tokens.drop st.prev).take (c + 1)).zip ((labels.drop st.prev).take (c + 1))).map
            fun p => Ev.chunk (p.1 ++ [32])) ++ [Ev.nl]
      ∧ st'.outLabel = st.outLabel ++
          ((((tokens.drop st.prev).take (c + 1)).zip ((labels.drop st.prev).take (c + 1))).map
            fun p => Ev.chunk (convert_label (p.2.drop 2) ++ [32])) ++ [Ev.nl]
      ∧ st'.outBio = st.outBio ++
          ((((tokens.drop st.prev).take (c + 1)).zip ((labels.drop st.prev).take (c + 1))).map
            fun p => Ev.chunk [p.2.headI, 32]) ++ [Ev.nl] := by
  unfold stepLine at h
  rw [if_neg hline] at h
  rcases hscan : scanLine line (tokens.drop st.prev) 0 st.tokenIndex st.count st.decreased
    with ⟨copt, ti, d⟩
  rw [hscan] at h
  cases copt with
  | none => simp at h
  | some c0 =>
    simp only at h
    refine ⟨c0, ti, d, if c0 = 1 ∧ d = false then c0 - 1 else c0, rfl, rfl, ?_⟩
    rcases hemit : emitPairs
        (((tokens.drop st.prev).take ((if c0 = 1 ∧ d = false then c0 - 1 else c0) + 1)).zip
          ((labels.drop st.prev).take ((if c0 = 1 ∧ d = false then c0 - 1 else c0) + 1)))
        { st with tokenIndex := ti, decreased := d,
                  count := some (if c0 = 1 ∧ d = false then c0 - 1 else c0) } with ⟨st2, e⟩
    rw [hemit] at h
    cases e with
    | some perr => simp at h
    | none =>
      obtain ⟨e1, e2, e3, e4, e5, e6, e7⟩ := emitPairs_ok _ _ _ hemit
      simp only at h
      injection h with h1 h2
      subst h1
      simp [e1, e2, e3, e4, e7]

/-- C2: when a token search fails on a non-blank line (the first miss at
scan position `k`, with `decreased` clear at line entry as `write_file`
maintains), the count retained for the line is `k - 1` when two or more
tokens had already matched (the extra retraction, recorded in
`decreased`), and `0` when exactly one token had matched (the back-off
`if count == 1 and not decreased`). -/
theorem count_correction_on_miss (tokens labels : List PyStr) (st : WFState) (line : PyStr)
    (st' : WFState) (k : Nat)
    (hline : line ≠ []) (hd : st.decreased = false)
    (hk : firstFail line (tokens.drop st.prev) st.tokenIndex = some k)
    (h : stepLine tokens labels st line = (st', none)) :
    (2 ≤ k → st'.count = some (k - 1)) ∧ (k = 1 → st'.count = some 0) := by
  obtain ⟨c0, ti, d, c, hscan, hc, -, hcount, -⟩ :=
    stepLine_ok_nonblank tokens labels st line hline st' h
  rw [hd] at hscan
  obtain ⟨ti'', hfail⟩ := scanLine_fail line (tokens.drop st.prev) st.tokenIndex k 0 st.count hk
  rw [hscan] at hfail
  injection hfail with hf1 hf2
  injection hf2 with hf2 hf3
  have hc0 : c0 = if 2 ≤ 0 + k then 0 + k - 1 else 0 + k := Option.some.injEq .. ▸ by
    exact Option.some_injective _ (by rw [hf1])
  constructor
  · intro h2
    have hc0v : c0 = k - 1 := by
      rw [hc0]
      simp only [Nat.zero_add]
      rw [if_pos h2]
    have hdv : d = true := by
      rw [hf3]
      simp only [decide_eq_true_eq]
      omega
    rw [hcount, hc, hc0v, hdv]
    simp
  · intro h1
    subst h1
    have hc0v : c0 = 1 := by
      rw [hc0]
      simp
    have hdv : d = false := by
      rw [hf3]
      decide
    rw [hcount, hc, hc0v, hdv]
    simp

theorem count_correction_on_miss_witness :
    (stepLine [pys "a", pys "b", pys "z"] [pys "B-x", pys "I-x", pys "I-x"] initWF
        (pys "ab")).1.count = some 1 :=
  (count_correction_on_miss [pys "a", pys "b", pys "z"] [pys "B-x", pys "I-x", pys "I-x"]
    initWF (pys "ab")
    (stepLine [pys "a", pys "b", pys "z"] [pys "B-x", pys "I-x", pys "I-x"] initWF
      (pys "ab")).1 2
    (by decide) rfl (by decide) rfl).1 (by decide)

theorem emitPairs_count (pairs : List (PyStr × PyStr)) :
    ∀ st, (emitPairs pairs st).1.count = st.count := by
  induction pairs with
  | nil => intro st; rfl
  | cons pr rest ih =>
    intro st
    obtain ⟨tok, lab⟩ := pr
    cases lab with
    | nil => rfl
    | cons b lb => exact ih _

theorem emitPairs_err (pairs : List (PyStr × PyStr)) :
    ∀ st st' e, emitPairs pairs st = (st', some e) → e = PyErr.indexError := by
  induction pairs with
  | nil => intro st st' e h; simp [emitPairs] at h
  | cons pr rest ih =>
    intro st st' e h
    obtain ⟨tok, lab⟩ := pr
    cases lab with
    | nil =>
      simp only [emitPairs] at h
      injection h with h1 h2
      injection h2 with h2
      exact h2.symm
    | cons b lb => exact ih _ st' e (by simpa [emitPairs] using h)

theorem stepLine_no_unbound (tokens labels : List PyStr) (st : WFState) (l : PyStr)
    (st' : WFState) (e : Option PyErr)
    (hQ : st.count = none → st.prev = 0) (hne : tokens ≠ [])
    (h : stepLine tokens labels st l = (st', e)) :
    e ≠ some PyErr.unboundLocal ∧ (st'.count = none → st'.prev = 0) := by
  unfold stepLine at h
  by_cases hl : l = []
  · rw [if_pos hl] at h
    injection h with h1 h2
    constructor
    · rw [← h2]; simp
    · intro hcn
      have hc' : st'.count = st.count := by rw [← h1]
      have hp' : st'.prev = st.prev := by rw [← h1]
      rw [hc'] at hcn
      rw [hp']
      exact hQ hcn
  · rw [if_neg hl] at h
    rcases hscan : scanLine l (tokens.drop st.prev) 0 st.tokenIndex st.count st.decreased
      with ⟨copt, ti, d⟩
    rw [hscan] at h
    have hsome : copt.isSome := by
      cases hc : st.count with
      | some x =>
        rw [hc] at hscan
        have hs := scanLine_isSome_of_some l (tokens.drop st.prev) 0 st.tokenIndex x st.decreased
        rw [hscan] at hs
        exact hs
      | none =>
        rw [hQ hc, hc] at hscan
        have hs := scanLine_isSome_of_ne_nil l (tokens.drop 0)
          (by rw [List.drop_zero]; exact hne) 0 st.tokenIndex none st.decreased
        rw [hscan] at hs
        exact hs
    cases copt with
    | none => simp at hsome
    | some c0 =>
      simp only at h
      rcases hemit : emitPairs
          (((tokens.drop st.prev).take ((if c0 = 1 ∧ d = false then c0 - 1 else c0) + 1)).zip
            ((labels.drop st.prev).take ((if c0 = 1 ∧ d = false then c0 - 1 else c0) + 1)))
          { st with tokenIndex := ti, decreased := d,
                    count := some (if c0 = 1 ∧ d = false then c0 - 1 else c0) } with ⟨st2, e2⟩
      have hcnt := emitPairs_count
        (((tokens.drop st.prev).take ((if c0 = 1 ∧ d = false then c0 - 1 else c0) + 1)).zip
          ((labels.drop st.prev).take ((if c0 = 1 ∧ d = false then c0 - 1 else c0) + 1)))
        { st with tokenIndex := ti, decreased := d,
                  count := some (if c0 = 1 ∧ d = false then c0 - 1 else c0) }
      rw [hemit] at hcnt h
      cases e2 with
      | some perr =>
        simp only at h hcnt
        injection h with h1 h2
        have hperr : perr = PyErr.indexError := emitPairs_err _ _ _ _ hemit
        constructor
        · rw [← h2, hperr]; simp
        · intro hcn
          have hc' : st'.count = st2.count := by rw [← h1]
          rw [hc', hcnt] at hcn
          simp at hcn
      | none =>
        simp only at h hcnt
        injection h with h1 h2
        constructor
        · rw [← h2]; simp
        · intro hcn
          have hc' : st'.count = st2.count := by rw [← h1]
          rw [hc', hcnt] at hcn
          simp at hcn

theorem runLines_no_unbound (tokens labels : List PyStr) (hne : tokens ≠ []) :
    ∀ (ls : List PyStr) (st : WFState), (st.count = none → st.prev = 0) →
    (runLines tokens labels ls st).2 ≠ some PyErr.unboundLocal := by
  intro ls
  induction ls with
  | nil => intro st hQ; simp [runLines]
  | cons l ls ih =>
    intro st hQ
    unfold runLines
    rcases hstep : stepLine tokens labels st l with ⟨st1, e⟩
    obtain ⟨he, hQ1⟩ := stepLine_no_unbound tokens labels st l st1 e hQ hne hstep
    cases e with
    | none => exact ih st1 hQ1
    | some e' => simpa using he

/-- C10: `write_file` is not total at the empty-token edge.  With an empty
token list and a non-blank first physical line, the loop over
`tokens[prev:]` never runs, so `if count == 1 and not decreased` reads the
never-bound loop variable `count` and raises `UnboundLocalError`; with a
non-empty token list that read is never reached unbound, on any input. -/
theorem write_file_empty_tokens_unbound (string : PyStr) (tokens labels : List PyStr) :
    (tokens = [] → ∀ l ls, pySplit 10 string = l :: ls → l ≠ [] →
      (write_file string tokens labels).2 = some PyErr.unboundLocal)
    ∧ (tokens ≠ [] → (write_file string tokens labels).2 ≠ some PyErr.unboundLocal) := by
  constructor
  · intro ht l ls hsplit hl
    subst ht
    unfold write_file
    rw [hsplit]
    have hstep : stepLine [] labels initWF l = (initWF, some PyErr.unboundLocal) := by
      unfold stepLine
      rw [if_neg hl]
      rfl
    unfold runLines
    rw [hstep]
  · intro hne
    unfold write_file
    exact runLines_no_unbound tokens labels hne (pySplit 10 string) initWF (fun _ => rfl)

theorem write_file_empty_tokens_unbound_witness :
    (write_file (pys "a") [] []).2 = some PyErr.unboundLocal
    ∧ (write_file (pys "a") [pys "a"] [pys "B-x"]).2 ≠ some PyErr.unboundLocal :=
  ⟨(write_file_empty_tokens_unbound (pys "a") [] []).1 rfl (pys "a") [] (by decide) (by decide),
   (write_file_empty_tokens_unbound (pys "a") [pys "a"] [pys "B-x"]).2 (by decide)⟩

theorem nlCount_append (a b : List Ev) : nlCount (a ++ b) = nlCount a + nlCount b :=
  List.countP_append _ a b

theorem nlCount_map_chunk {α : Type} (f : α → PyStr) (l : List α) :
    nlCount (l.map fun a => Ev.chunk (f a)) = 0 := by
  induction l with
  | nil => rfl
  | cons a l ih =>
    have hb : ((Ev.chunk (f a) : Ev) == Ev.nl) = false := rfl
    simp only [nlCount, List.map_cons, List.countP_cons, hb] at ih ⊢
    simp [ih]

theorem stepLine_ok_nl (tokens labels : List PyStr) (st : WFState) (line : PyStr)
    (st' : WFState) (h : stepLine tokens labels st line = (st', none)) :
    nlCount st'.outIn = nlCount st.outIn + 1
    ∧ nlCount st'.outLabel = nlCount st.outLabel + 1
    ∧ nlCount st'.outBio = nlCount st.outBio + 1 := by
  by_cases hl : line = []
  · subst hl
    unfold stepLine at h
    rw [if_pos rfl] at h
    injection h with h1 h2
    have e1 : st'.outIn = st.outIn ++ [Ev.nl] := by rw [← h1]
    have e2 : st'.outLabel = st.outLabel ++ [Ev.nl] := by rw [← h1]
    have e3 : st'.outBio = st.outBio ++ [Ev.nl] := by rw [← h1]
    rw [e1, e2, e3, nlCount_append, nlCount_append, nlCount_append]
    refine ⟨rfl, rfl, rfl⟩
  · obtain ⟨c0, ti, d, c, -, -, -, -, -, -, e1, e2, e3⟩ :=
      stepLine_ok_nonblank tokens labels st line hl st' h
    rw [e1, e2, e3]
    rw [nlCount_append, nlCount_append, nlCount_append, nlCount_append, nlCount_append,
      nlCount_append, nlCount_map_chunk, nlCount_map_chunk, nlCount_map_chunk]
    refine ⟨rfl, rfl, rfl⟩

theorem runLines_ok_nl (tokens labels : List PyStr) :
    ∀ (ls : List PyStr) (st st' : WFState), runLines tokens labels ls st = (st', none) →
    nlCount st'.outIn = nlCount st.outIn + ls.length
    ∧ nlCount st'.outLabel = nlCount st.outLabel + ls.length
    ∧ nlCount st'.outBio = nlCount st.outBio + ls.length := by
  intro ls
  induction ls with
  | nil =>
    intro st st' h
    injection h with h1 h2
    rw [← h1]
    simp
  | cons l ls ih =>
    intro st st' h
    unfold runLines at h
    rcases hstep : stepLine tokens labels st l with ⟨st1, e⟩
    rw [hstep] at h
    cases e with
    | some e' => simp at h
    | none =>
      obtain ⟨n1, n2, n3⟩ := stepLine_ok_nl tokens labels st l st1 hstep
      obtain ⟨m1, m2, m3⟩ := ih st1 st' h
      refine ⟨?_, ?_, ?_⟩ <;> simp only [m1, m2, m3, n1, n2, n3, List.length_cons] <;> omega

/-- C3 counterexample: with an empty token list and the one-line input
`"a"`, `write_file` raises `UnboundLocalError` and writes no newline at
all, although the input has one physical line. -/
theorem write_file_crash_drops_line_markers :
    (write_file (pys "a") [] []).2 = some PyErr.unboundLocal
    ∧ nlCount (write_file (pys "a") [] []).1.outIn = 0
    ∧ (pySplit 10 (pys "a")).length = 1 := by
  refine ⟨by decide, by decide, by decide⟩

/-- C3 (amended): whenever `write_file` completes without raising, each of
the three streams receives exactly one newline per physical line of the
input string, where the physical lines are produced by splitting on the
line-break character (including a final blank line when the text ends
with a line break). -/
theorem write_file_line_counts (string : PyStr) (tokens labels : List PyStr)
    (h : (write_file string tokens labels).2 = none) :
    nlCount (write_file string tokens labels).1.outIn = (pySplit 10 string).length
    ∧ nlCount (write_file string tokens labels).1.outLabel = (pySplit 10 string).length
    ∧ nlCount (write_file string tokens labels).1.outBio = (pySplit 10 string).length := by
  have hpair : runLines tokens labels (pySplit 10 string) initWF =
      ((write_file string tokens labels).1, none) := by
    unfold write_file at h ⊢
    rw [← h]
  obtain ⟨m1, m2, m3⟩ := runLines_ok_nl tokens labels (pySplit 10 string) initWF
    (write_file string tokens labels).1 hpair
  refine ⟨?_, ?_, ?_⟩
  · simpa [initWF, nlCount] using m1
  · simpa [initWF, nlCount] using m2
  · simpa [initWF, nlCount] using m3

theorem write_file_line_counts_witness :
    nlCount (write_file (pys "a b\n") [pys "a", pys "b"] [pys "B-x", pys "I-y"]).1.outIn =
        (pySplit 10 (pys "a b\n")).length
    ∧ nlCount (write_file (pys "a b\n") [pys "a", pys "b"] [pys "B-x", pys "I-y"]).1.outLabel =
        (pySplit 10 (pys "a b\n")).length
    ∧ nlCount (write_file (pys "a b\n") [pys "a", pys "b"] [pys "B-x", pys "I-y"]).1.outBio =
        (pySplit 10 (pys "a b\n")).length :=
  write_file_line_counts (pys "a b\n") [pys "a", pys "b"] [pys "B-x", pys "I-y"] (by decide)

theorem map_fst_zip_take {α β : Type} (a : List α) :
    ∀ b : List β, (a.zip b).map Prod.fst = a.take b.length := by
  induction a with
  | nil => intro b; simp
  | cons x a ih =>
    intro b
    cases b with
    | nil => simp
    | cons y b => simp [ih b]

theorem stepLine_prefix_groups (tokens labels : List PyStr) (st : WFState) (line : PyStr)
    (st' : WFState) (h : stepLine tokens labels st line = (st', none))
    (gs : List (List PyStr))
    (hgs1 : st.outIn = (gs.map encLine).flatten)
    (hgs2 : gs.flatten =
      ((tokens.take (min st.prev (min tokens.length labels.length))).map fun t => t ++ [32])) :
    ∃ gs' : List (List PyStr), st'.outIn = (gs'.map encLine).flatten
      ∧ gs'.flatten =
        ((tokens.take (min st'.prev (min tokens.length labels.length))).map fun t => t ++ [32]) := by
  by_cases hl : line = []
  · subst hl
    have hb := (blank_line_consumes_nothing tokens labels st).1
    rw [h] at hb
    injection hb with hb1 hb2
    have e1 : st'.outIn = st.outIn ++ [Ev.nl] := by rw [hb1]
    have ep : st'.prev = st.prev := by rw [hb1]
    refine ⟨gs ++ [[]], ?_, ?_⟩
    · rw [e1, hgs1]
      simp [encLine]
    · rw [ep]
      simpa using hgs2
  · obtain ⟨c0, ti, d, c, -, -, hprev, -, -, -, e1, -, -⟩ :=
      stepLine_ok_nonblank tokens labels st line hl st' h
    refine ⟨gs ++ [(((tokens.drop st.prev).take (c + 1)).zip
      ((labels.drop st.prev).take (c + 1))).map fun p => p.1 ++ [32]], ?_, ?_⟩
    · rw [e1, hgs1]
      simp [encLine, List.map_map]
    · rw [List.flatten_append, hgs2, hprev]
      simp only [List.flatten_cons, List.flatten_nil, List.append_nil]
      have hfst : ((((tokens.drop st.prev).take (c + 1)).zip
          ((labels.drop st.prev).take (c + 1))).map fun p => p.1 ++ [32]) =
          (((tokens.drop st.prev).take (min (c + 1) (labels.length - st.prev))).map
            fun t => t ++ [32]) := by
        have h1 : ((((tokens.drop st.prev).take (c + 1)).zip
            ((labels.drop st.prev).take (c + 1))).map Prod.fst) =
            ((tokens.drop st.prev).take (c + 1)).take
              (((labels.drop st.prev).take (c + 1)).length) :=
          map_fst_zip_take _ _
        have h2 : (((labels.drop st.prev).take (c + 1)).length) =
            min (c + 1) (labels.length - st.prev) := by
          simp [List.length_take, List.length_drop]
        have h3 : (((tokens.drop st.prev).take (c + 1)).take
              (min (c + 1) (labels.length - st.prev))) =
            ((tokens.drop st.prev).take (min (c + 1) (labels.length - st.prev))) := by
          rw [List.take_take]
          congr 1
          omega
        calc ((((tokens.drop st.prev).take (c + 1)).zip
            ((labels.drop st.prev).take (c + 1))).map fun p => p.1 ++ [32])
            = (((((tokens.drop st.prev).take (c + 1)).zip
                ((labels.drop st.prev).take (c + 1))).map Prod.fst).map fun t => t ++ [32]) := by
              rw [List.map_map]; rfl
          _ = _ := by rw [h1, h2, h3]
      rw [hfst, ← List.map_append]
      congr 1
      by_cases hA : st.prev ≤ tokens.length ∧ st.prev ≤ labels.length
      · have hE : min st.prev (min tokens.length labels.length) = st.prev := by omega
        rw [hE, ← List.take_add]
        rw [List.take_eq_take]
        omega
      · have hE : min st.prev (min tokens.length labels.length) =
            min (st.prev + c + 1) (min tokens.length labels.length) := by omega
        have hnil : ((tokens.drop st.prev).take (min (c + 1) (labels.length - st.prev))) = [] := by
          rcases Nat.lt_or_ge tokens.length st.prev with hlt | hge
          · rw [List.drop_eq_nil_of_le (Nat.le_of_lt hlt)]
            simp
          · have hll : labels.length < st.prev := by omega
            have hm : min (c + 1) (labels.length - st.prev) = 0 := by omega
            rw [hm]
            simp
        rw [hnil, hE]
        simp

theorem runLines_prefix_groups (tokens labels : List PyStr) :
    ∀ (ls : List PyStr) (st st' : WFState), runLines tokens labels ls st = (st', none) →
    (∃ gs : List (List PyStr), st.outIn = (gs.map encLine).flatten
      ∧ gs.flatten =
        ((tokens.take (min st.prev (min tokens.length labels.length))).map fun t => t ++ [32])) →
    ∃ gs' : List (List PyStr), st'.outIn = (gs'.map encLine).flatten
      ∧ gs'.flatten =
        ((tokens.take (min st'.prev (min tokens.length labels.length))).map fun t => t ++ [32]) := by
  intro ls
  induction ls with
  | nil =>
    intro st st' h hgs
    injection h with h1 h2
    rw [← h1]
    exact hgs
  | cons l ls ih =>
    intro st st' h hgs
    unfold runLines at h
    rcases hstep : stepLine tokens labels st l with ⟨st1, e⟩
    rw [hstep] at h
    cases e with
    | some e' => simp at h
    | none =>
      obtain ⟨gs, hgs1, hgs2⟩ := hgs
      exact ih st1 st' h (stepLine_prefix_groups tokens labels st l st1 hstep gs hgs1 hgs2)

/-- C1: on every run of `write_file` that completes, the `.in` stream is a
sequence of per-line token groups (each group a run of `token + ' '`
chunks closed by one newline), and the groups concatenated in line order
are exactly a prefix of the global token stream: tokens are consumed
contiguously, none is repeated or skipped, within each line they keep
the global order, and tokens beyond that prefix (left over after the
last line) are dropped. -/
theorem write_file_realigns_contiguously (string : PyStr) (tokens labels : List PyStr)
    (h : (write_file string tokens labels).2 = none) :
    ∃ (gs : List (List PyStr)) (n : Nat),
      (write_file string tokens labels).1.outIn = (gs.map encLine).flatten
      ∧ gs.flatten = ((tokens.take n).map fun t => t ++ [32]) := by
  have hpair : runLines tokens labels (pySplit 10 string) initWF =
      ((write_file string tokens labels).1, none) := by
    unfold write_file at h ⊢
    rw [← h]
  obtain ⟨gs, hg1, hg2⟩ := runLines_prefix_groups tokens labels (pySplit 10 string) initWF
    (write_file string tokens labels).1 hpair
    ⟨[], rfl, by simp [initWF]⟩
  exact ⟨gs, _, hg1, hg2⟩

theorem write_file_realigns_contiguously_witness :
    ∃ (gs : List (List PyStr)) (n : Nat),
      (write_file (pys "a b\n") [pys "a", pys "b"] [pys "B-x", pys "I-y"]).1.outIn =
        (gs.map encLine).flatten
      ∧ gs.flatten = ((([pys "a", pys "b"] : List PyStr).take n).map fun t => t ++ [32]) :=
  write_file_realigns_contiguously (pys "a b\n") [pys "a", pys "b"] [pys "B-x", pys "I-y"]
    (by decide)
